import Mathlib

/-!
# Shallow embedding of strongSwan's aligned-allocation primitive

This file embeds `malloc_align` and `free_align` from
`src/libstrongswan/utils/utils.c` and proves the specified properties.

Modelling choices:
* Memory is a total map `Int → Nat` from byte addresses to byte values.
* The backing allocator is a function `Nat → Option Int` taking the
  requested byte count to either a base address (`some base`) or an
  out-of-memory failure (`none`), mirroring `malloc`.
* `malloc_align` returns the user pointer (or `none` on failure) together
  with the post-call memory; on failure the memory is returned unchanged.
* `free_align` is pure: it never writes memory.  Its result `some base`
  models "the backing `free` was called exactly once, on `base`";
  `none` models "the corruption diagnostic was emitted and the function
  returned without calling `free`".
-/

namespace StrongswanUtils

/-- Byte-addressed memory: the byte value stored at each address. -/
abbrev Mem := Int → Nat

/-- The `align == 0` normalization at the top of `malloc_align`:
`if (align == 0) { align = 1; }`. -/
def normAlign (align : Nat) : Nat :=
  if align = 0 then 1 else align

/-- The byte count `malloc_align` passes to the backing allocator:
`malloc(align + sizeof(pad) + size)` with `sizeof(pad) = 1`, computed after
the zero-align normalization. -/
def requestSize (size align : Nat) : Nat :=
  normAlign align + 1 + size

/-- The padding computed by `malloc_align`:
`pad = align - ((uintptr_t)ptr % align)` for backing base `base` and
(normalized) alignment `a`. -/
def padOf (base : Int) (a : Nat) : Nat :=
  a - (base % (a : Int)).toNat

/-- `memset(lo, v, len)`: write byte value `v` to the `len` bytes starting
at address `lo`. -/
def writeRange (mem : Mem) (lo : Int) (len v : Nat) : Mem :=
  fun addr => if lo ≤ addr ∧ addr < lo + (len : Int) then v else mem addr

/-- Embedding of `malloc_align(size, align)`.  Returns the user-visible
pointer (`none` when the backing allocator fails) and the memory after the
call. -/
def malloc_align (mem : Mem) (size align : Nat) (backing : Nat → Option Int) :
    Option Int × Mem :=
  match backing (requestSize size align) with
  | none => (none, mem)
  | some base =>
    let a := normAlign align
    let pad := padOf base a
    (some (base + (pad : Int)), writeRange mem base pad pad)

/-- The verification loop of `free_align`:
`for (pad = *pos; (void*)pos >= ptr - pad; pos--) { if (*pos != pad) ... }`.
`k` is the number of loop iterations still allowed by the bound
(`pos ≥ ptr - pad` holds for exactly `pad` positions starting at `ptr - 1`),
`pos` the current scan position.  Returns `true` when every visited byte
equals `pad`. -/
def scanLoop (mem : Mem) (pad : Nat) : Nat → Int → Bool
  | 0, _ => true
  | k + 1, pos => if mem pos = pad then scanLoop mem pad k (pos - 1) else false

/-- Number of `*pos != pad` comparisons the verification loop executes
(it stops at the first mismatch). -/
def scanCount (mem : Mem) (pad : Nat) : Nat → Int → Nat
  | 0, _ => 0
  | k + 1, pos => if mem pos = pad then scanCount mem pad k (pos - 1) + 1 else 1

/-- Embedding of `free_align(ptr)`.  `some base` means the backing `free`
was called on `base`; `none` means the corruption diagnostic
`"!!!! invalid free_align() !!!!"` was emitted and nothing was released. -/
def free_align (mem : Mem) (ptr : Int) : Option Int :=
  if scanLoop mem (mem (ptr - 1)) (mem (ptr - 1)) (ptr - 1)
  then some (ptr - (mem (ptr - 1) : Int)) else none

/-- Number of byte comparisons a `free_align(ptr)` call performs. -/
def free_alignComparisons (mem : Mem) (ptr : Int) : Nat :=
  scanCount mem (mem (ptr - 1)) (mem (ptr - 1)) (ptr - 1)

/-- The memory of the allocation `malloc_align(size = 10, align = 8)` on
backing base `0` (so `pad = 8`, user pointer `8`), with the single padding
byte at address `7 = pointer - 1` overwritten with `0 ≠ pad`. -/
def corruptTopMem : Mem :=
  fun a => if a = 7 then 0 else (malloc_align (fun _ => 0) 10 8 (fun _ => some 0)).snd a

/-! ## Basic lemmas about the scan loop -/

theorem scanLoop_eq_true_iff (mem : Mem) (pad : Nat) :
    ∀ (k : Nat) (pos : Int),
      scanLoop mem pad k pos = true ↔ ∀ i : Nat, i < k → mem (pos - i) = pad := by
  intro k
  induction k with
  | zero => intro pos; simp [scanLoop]
  | succ k ih =>
    intro pos
    simp only [scanLoop]
    by_cases h : mem pos = pad
    · simp only [h, if_pos rfl, if_true, ih (pos - 1)]
      constructor
      · intro hall i hi
        match i with
        | 0 => simpa using h
        | j + 1 =>
          have := hall j (by omega)
          have hcast : pos - 1 - (j : Int) = pos - ((j : Nat) + 1 : Nat) := by
            push_cast; ring
          rwa [hcast] at this
      · intro hall j hj
        have := hall (j + 1) (by omega)
        have hcast : pos - ((j : Nat) + 1 : Nat) = pos - 1 - (j : Int) := by
          push_cast; ring
        rwa [hcast] at this
    · simp only [h, if_neg h, if_false]
      constructor
      · intro hfalse; exact absurd hfalse (by simp)
      · intro hall
        exact absurd (by simpa using hall 0 (by omega)) h

theorem scanCount_le (mem : Mem) (pad : Nat) :
    ∀ (k : Nat) (pos : Int), scanCount mem pad k pos ≤ k := by
  intro k
  induction k with
  | zero => intro pos; simp [scanCount]
  | succ k ih =>
    intro pos
    simp only [scanCount]
    split
    · have := ih (pos - 1)
      omega
    · omega

/-- Bounds on the padding value: for normalized alignment `a ≥ 1`,
`padOf base a ∈ [1, a]`, and the backing base plus `padOf` is what the
arithmetic in the C source produces. -/
theorem padOf_bounds (base : Int) (a : Nat) (ha : 1 ≤ a) :
    1 ≤ padOf base a ∧ padOf base a ≤ a := by
  have ha0 : (a : Int) ≠ 0 := by exact_mod_cast Nat.one_le_iff_ne_zero.mp ha
  have hpos : (0 : Int) < a := by exact_mod_cast ha
  have h1 : 0 ≤ base % (a : Int) := Int.emod_nonneg base ha0
  have h2 : base % (a : Int) < a := Int.emod_lt_of_pos base hpos
  unfold padOf
  omega

/-- Unfolding `malloc_align` when the backing allocator succeeds. -/
theorem malloc_align_some (mem : Mem) (size align : Nat) (backing : Nat → Option Int)
    (base : Int) (hb : backing (requestSize size align) = some base) :
    malloc_align mem size align backing =
      (some (base + (padOf base (normAlign align) : Int)),
       writeRange mem base (padOf base (normAlign align)) (padOf base (normAlign align))) := by
  unfold malloc_align
  rw [hb]

/-- The returned pointer `base + padOf base a` is a multiple of `a`. -/
theorem add_padOf_emod (base : Int) (a : Nat) (ha : 1 ≤ a) :
    (base + (padOf base a : Int)) % (a : Int) = 0 := by
  have ha0 : (a : Int) ≠ 0 := by exact_mod_cast Nat.one_le_iff_ne_zero.mp ha
  have hpos : (0 : Int) < a := by exact_mod_cast ha
  have h1 : 0 ≤ base % (a : Int) := Int.emod_nonneg base ha0
  have h2 : base % (a : Int) < a := Int.emod_lt_of_pos base hpos
  have hcast : (padOf base a : Int) = (a : Int) - base % (a : Int) := by
    unfold padOf
    omega
  have hde : (a : Int) * (base / (a : Int)) + base % (a : Int) = base :=
    Int.ediv_add_emod base (a : Int)
  have hq : base + ((a : Int) - base % (a : Int)) = (a : Int) * (base / (a : Int) + 1) := by
    linear_combination -hde
  rw [hcast, hq, Int.mul_emod_right]

theorem normAlign_of_pos (align : Nat) (h : 1 ≤ align) : normAlign align = align := by
  unfold normAlign
  rw [if_neg (by omega)]

/-! ## Claims -/

/-- C1: For every `size` and every `align ∈ [1, 255]`, when the backing
allocator succeeds with base `base`, the pointer returned by `malloc_align`
is a multiple of `align`, and at least `size` usable bytes follow it within
the backing allocation `[base, base + requestSize size align)`. -/
theorem malloc_align_returns_aligned_pointer (mem : Mem) (size align : Nat)
    (backing : Nat → Option Int) (base : Int)
    (h1 : 1 ≤ align) (_h2 : align ≤ 255)
    (hb : backing (requestSize size align) = some base) :
    ∃ ptr mem2, malloc_align mem size align backing = (some ptr, mem2) ∧
      ptr % (align : Int) = 0 ∧
      base ≤ ptr ∧ ptr + (size : Int) ≤ base + (requestSize size align : Int) := by
  have hnorm : normAlign align = align := normAlign_of_pos align h1
  have hpad := padOf_bounds base align h1
  refine ⟨base + (padOf base align : Int), _,
    by rw [malloc_align_some mem size align backing base hb, hnorm], ?_, ?_, ?_⟩
  · exact add_padOf_emod base align h1
  · omega
  · have hreq : requestSize size align = align + 1 + size := by
      unfold requestSize
      rw [hnorm]
    rw [hreq]
    push_cast
    omega

theorem malloc_align_returns_aligned_pointer_witness :
    ∃ ptr mem2,
      malloc_align (fun _ => 0) 7 8 (fun _ => some 10) = (some ptr, mem2) ∧
      ptr % (8 : Int) = 0 ∧
      10 ≤ ptr ∧ ptr + (7 : Int) ≤ 10 + (requestSize 7 8 : Int) :=
  malloc_align_returns_aligned_pointer (fun _ => 0) 7 8 (fun _ => some 10) 10
    (by decide) (by decide) rfl

/-- C2: For every `size` and `align ≥ 1`, on a successful backing allocation
at `base`, `malloc_align` computes `pad = align - base % align ∈ [1, align]`
(with `pad = align` exactly when `base` is already aligned), writes the byte
value `pad` into each of the `pad` bytes starting at `base`, and returns
`base + pad`. -/
theorem malloc_align_pad_metadata (mem : Mem) (size align : Nat)
    (backing : Nat → Option Int) (base : Int)
    (h1 : 1 ≤ align) (hb : backing (requestSize size align) = some base) :
    1 ≤ padOf base align ∧ padOf base align ≤ align ∧
    (base % (align : Int) = 0 → padOf base align = align) ∧
    (malloc_align mem size align backing).fst = some (base + (padOf base align : Int)) ∧
    ∀ addr : Int, base ≤ addr → addr < base + (padOf base align : Int) →
      (malloc_align mem size align backing).snd addr = padOf base align := by
  have hnorm : normAlign align = align := normAlign_of_pos align h1
  have hpad := padOf_bounds base align h1
  refine ⟨hpad.1, hpad.2, ?_, ?_, ?_⟩
  · intro h0
    unfold padOf
    rw [h0]
    simp
  · rw [malloc_align_some mem size align backing base hb, hnorm]
  · intro addr hlo hhi
    rw [malloc_align_some mem size align backing base hb, hnorm]
    show (if base ≤ addr ∧ addr < base + (padOf base align : Int)
      then padOf base align else mem addr) = padOf base align
    rw [if_pos ⟨hlo, hhi⟩]

theorem malloc_align_pad_metadata_witness :
    1 ≤ padOf 10 8 ∧ padOf 10 8 ≤ 8 ∧
    ((10 : Int) % (8 : Int) = 0 → padOf 10 8 = 8) ∧
    (malloc_align (fun _ => 0) 10 8 (fun _ => some 10)).fst =
      some (10 + (padOf 10 8 : Int)) ∧
    (∀ addr : Int, 10 ≤ addr → addr < 10 + (padOf 10 8 : Int) →
      (malloc_align (fun _ => 0) 10 8 (fun _ => some 10)).snd addr = padOf 10 8) :=
  malloc_align_pad_metadata (fun _ => 0) 10 8 (fun _ => some 10) 10 (by decide) rfl

/-- C8: Calling `malloc_align` with `align = 0` behaves identically to
calling it with `align = 1`: same request size, same pad, same returned
pointer and memory, for every backing allocator and initial memory. -/
theorem malloc_align_zero_eq_one (mem : Mem) (size : Nat)
    (backing : Nat → Option Int) :
    malloc_align mem size 0 backing = malloc_align mem size 1 backing := rfl

/-- C3: Round-trip: for every `size` and `align`, calling `free_align` on
the pointer returned by a successful `malloc_align`, with the memory
unmodified since allocation, reports no corruption and releases exactly the
backing base the backing allocator originally returned (`some base`: one
release call, on `base`). -/
theorem malloc_free_roundtrip (mem : Mem) (size align : Nat)
    (backing : Nat → Option Int) (base : Int)
    (hb : backing (requestSize size align) = some base) :
    ∃ ptr mem2, malloc_align mem size align backing = (some ptr, mem2) ∧
      free_align mem2 ptr = some base := by
  have ha : 1 ≤ normAlign align := by
    unfold normAlign
    split <;> omega
  have hpad := padOf_bounds base (normAlign align) ha
  set pad := padOf base (normAlign align) with hpd
  refine ⟨base + (pad : Int), writeRange mem base pad pad,
    malloc_align_some mem size align backing base hb, ?_⟩
  have hread : writeRange mem base pad pad (base + (pad : Int) - 1) = pad := by
    unfold writeRange
    rw [if_pos (by constructor <;> omega)]
  have hscan : scanLoop (writeRange mem base pad pad) pad pad
      (base + (pad : Int) - 1) = true := by
    rw [scanLoop_eq_true_iff]
    intro i hi
    have hcond : base ≤ base + (pad : Int) - 1 - (i : Int) ∧
        base + (pad : Int) - 1 - (i : Int) < base + (pad : Int) := by
      constructor <;> omega
    unfold writeRange
    rw [if_pos hcond]
  unfold free_align
  rw [hread, hscan]
  simp

theorem malloc_free_roundtrip_witness :
    ∃ ptr mem2,
      malloc_align (fun _ => 0) 3 4 (fun _ => some 10) = (some ptr, mem2) ∧
      free_align mem2 ptr = some 10 :=
  malloc_free_roundtrip (fun _ => 0) 3 4 (fun _ => some 10) 10 rfl

/-- C5: If the metadata byte at `pointer - 1` holds `0` when `free_align`
is called, the backward scan performs zero comparisons, no corruption is
reported, and the backing release is called on `pointer - 0 = pointer`
itself rather than the true backing base. -/
theorem free_align_zero_metadata (mem : Mem) (ptr : Int)
    (h : mem (ptr - 1) = 0) :
    free_alignComparisons mem ptr = 0 ∧ free_align mem ptr = some ptr := by
  unfold free_alignComparisons free_align
  rw [h]
  exact ⟨rfl, by simp [scanLoop]⟩

theorem free_align_zero_metadata_witness :
    free_alignComparisons (fun _ => 0) 5 = 0 ∧
    free_align (fun _ => 0) 5 = some 5 :=
  free_align_zero_metadata (fun _ => 0) 5 rfl

/-- C6: Whenever some byte visited by the backward scan (position
`pointer - 1 - i` for `i < pad`, `pad` the byte read at `pointer - 1`)
differs from `pad`, `free_align` reports corruption and returns without
calling the backing release (`none`); the model's `free_align` is pure, so
no memory is changed. -/
theorem free_align_mismatch_no_release (mem : Mem) (ptr : Int)
    (h : ∃ i : Nat, i < mem (ptr - 1) ∧
      mem (ptr - 1 - (i : Int)) ≠ mem (ptr - 1)) :
    free_align mem ptr = none := by
  have hne : ¬ scanLoop mem (mem (ptr - 1)) (mem (ptr - 1)) (ptr - 1) = true := by
    rw [scanLoop_eq_true_iff]
    intro hall
    obtain ⟨i, hi, hd⟩ := h
    exact hd (hall i hi)
  unfold free_align
  rw [if_neg hne]

theorem free_align_mismatch_no_release_witness :
    free_align (fun a => if a = 3 then 0 else 3) 5 = none :=
  free_align_mismatch_no_release (fun a => if a = 3 then 0 else 3) 5
    ⟨1, by decide, by decide⟩

/-- C9: `free_align` always terminates: for every value of the byte at
`pointer - 1` and arbitrary contents of the preceding bytes, the backward
scan performs at most `pad = mem (ptr - 1)` comparisons, hence at most 255
once that byte value is (as in the C code, where it is a `u_int8_t`) at
most 255. -/
theorem free_align_scan_bounded (mem : Mem) (ptr : Int) :
    free_alignComparisons mem ptr ≤ mem (ptr - 1) ∧
    (mem (ptr - 1) ≤ 255 → free_alignComparisons mem ptr ≤ 255) := by
  have h := scanCount_le mem (mem (ptr - 1)) (mem (ptr - 1)) (ptr - 1)
  unfold free_alignComparisons
  exact ⟨h, fun hb => le_trans h hb⟩

theorem free_align_scan_bounded_witness :
    free_alignComparisons (fun _ => 7) 0 ≤ 7 ∧
    free_alignComparisons (fun _ => 7) 0 ≤ 255 :=
  ⟨(free_align_scan_bounded (fun _ => 7) 0).1,
   (free_align_scan_bounded (fun _ => 7) 0).2 (by decide)⟩

/-- C10: The first byte the scan compares is `pointer - 1`, the very byte
the pad value was just read from, so that comparison never fails (first
conjunct: when `pad ≥ 1` the scan unconditionally proceeds past its first
step); consequently if the byte at `pointer - 1` holds `1`, the scan
completes after that single trivially-true comparison, no corruption is
reported, and the backing release is called on `pointer - 1`. -/
theorem free_align_first_comparison_trivial (mem : Mem) (ptr : Int) :
    (1 ≤ mem (ptr - 1) →
      scanLoop mem (mem (ptr - 1)) (mem (ptr - 1)) (ptr - 1) =
        scanLoop mem (mem (ptr - 1)) (mem (ptr - 1) - 1) (ptr - 1 - 1)) ∧
    (mem (ptr - 1) = 1 →
      free_align mem ptr = some (ptr - 1) ∧
      free_alignComparisons mem ptr = 1) := by
  constructor
  · intro h
    obtain ⟨k, hk⟩ : ∃ k, mem (ptr - 1) = k + 1 := ⟨mem (ptr - 1) - 1, by omega⟩
    rw [hk]
    show (if mem (ptr - 1) = k + 1 then scanLoop mem (k + 1) k (ptr - 1 - 1)
      else false) = scanLoop mem (k + 1) (k + 1 - 1) (ptr - 1 - 1)
    rw [if_pos hk]
    simp
  · intro h1
    unfold free_align free_alignComparisons
    rw [h1]
    constructor
    · rw [if_pos (by simp [scanLoop, h1])]
      simp
    · simp [scanCount, h1]

theorem free_align_first_comparison_trivial_witness :
    free_align (fun _ => 1) 5 = some (5 - 1) ∧
    free_alignComparisons (fun _ => 1) 5 = 1 :=
  (free_align_first_comparison_trivial (fun _ => 1) 5).2 rfl

/-- C4 counterexample: take `size = 10`, `align = 8`, backing base `0`, so
`pad = padOf 0 8 = 8` and the user pointer is `8`.  Overwriting the single
padding byte at address `7 = pointer - 1` — inside `[pointer - pad,
pointer - 1]` — with `0 ≠ pad` is NOT detected: `free_align` reports no
corruption and calls the backing release (on `8`, the wrong base), refuting
the claim that any single-byte corruption in that range is detected. -/
theorem free_align_top_byte_corruption_counterexample :
    padOf 0 8 = 8 ∧ (0 : Nat) ≠ padOf 0 8 ∧
    (malloc_align (fun _ => 0) 10 8 (fun _ => some 0)).fst = some 8 ∧
    corruptTopMem 7 = 0 ∧
    free_align corruptTopMem 8 = some 8 := by decide

/-- C4 (amended): if exactly one byte strictly below the metadata byte —
within `[pointer - pad, pointer - 2]` — is overwritten with a value
different from `pad`, then `free_align` detects the corruption and does not
call the backing release.  (Corrupting the byte at `pointer - 1` itself can
go undetected, as the counterexample shows.) -/
theorem free_align_detects_interior_corruption (mem : Mem) (size align : Nat)
    (backing : Nat → Option Int) (base ptr caddr : Int) (v : Nat) (mem2 : Mem)
    (hb : backing (requestSize size align) = some base)
    (hm : malloc_align mem size align backing = (some ptr, mem2))
    (hlo : base ≤ caddr) (hhi : caddr < ptr - 1)
    (hv : v ≠ padOf base (normAlign align)) :
    free_align (fun a => if a = caddr then v else mem2 a) ptr = none := by
  have ha : 1 ≤ normAlign align := by
    unfold normAlign
    split <;> omega
  have hpad := padOf_bounds base (normAlign align) ha
  set pad := padOf base (normAlign align) with hpd
  rw [malloc_align_some mem size align backing base hb, Prod.mk.injEq] at hm
  obtain ⟨hptr, hmem2⟩ := hm
  have hptr' : ptr = base + (pad : Int) := (Option.some.inj hptr).symm
  subst hptr'
  subst hmem2
  have hread : (fun a => if a = caddr then v
      else writeRange mem base pad pad a) (base + (pad : Int) - 1) = pad := by
    show (if base + (pad : Int) - 1 = caddr then v
      else writeRange mem base pad pad (base + (pad : Int) - 1)) = pad
    rw [if_neg (by omega)]
    unfold writeRange
    rw [if_pos (by constructor <;> omega)]
  have hne : ¬ scanLoop (fun a => if a = caddr then v
      else writeRange mem base pad pad a) pad pad (base + (pad : Int) - 1) = true := by
    rw [scanLoop_eq_true_iff]
    intro hall
    have hi : (base + (pad : Int) - 1 - caddr).toNat < pad := by omega
    have := hall (base + (pad : Int) - 1 - caddr).toNat hi
    have hpos : base + (pad : Int) - 1 -
        ((base + (pad : Int) - 1 - caddr).toNat : Int) = caddr := by omega
    rw [hpos] at this
    simp only [if_pos rfl] at this
    exact hv this
  unfold free_align
  rw [hread, if_neg hne]

theorem free_align_detects_interior_corruption_witness :
    free_align (fun a => if a = 1 then 9
        else (malloc_align (fun _ => 0) 2 4 (fun _ => some 0)).snd a) 4 = none :=
  free_align_detects_interior_corruption (fun _ => 0) 2 4 (fun _ => some 0)
    0 4 1 9 (malloc_align (fun _ => 0) 2 4 (fun _ => some 0)).snd
    rfl rfl (by decide) (by decide) (by decide)

/-- C7 counterexample: at `align = 0` the code first normalizes the
alignment to `1` and then requests `1 + 1 + size` bytes, not
`align + 1 + size = 0 + 1 + size`: with `size = 0` the request is `2`, and
against a backing allocator that succeeds exactly on a request of
`0 + 1 + 0 = 1` bytes, `malloc_align` fails — so it did not request
`align + 1 + size` bytes. -/
theorem malloc_align_request_zero_align_counterexample :
    requestSize 0 0 = 2 ∧ (0 + 1 + 0 : Nat) ≠ requestSize 0 0 ∧
    (malloc_align (fun _ => 0) 0 0
      (fun n => if n = 0 + 1 + 0 then some 0 else none)).fst = none := by decide

/-- C7 (amended): for every `size` and every `align ≥ 1`, `malloc_align`
requests exactly `align + 1 + size` bytes from the backing allocator (its
result depends on the backing allocator only at that request size), and if
the backing allocator returns failure, `malloc_align` returns failure with
the memory unchanged — no metadata written, no partial state.  (For
`align = 0` the request is `1 + 1 + size`, the alignment being normalized
to `1` first.) -/
theorem malloc_align_request_and_failure (mem : Mem) (size align : Nat)
    (backing : Nat → Option Int) (h1 : 1 ≤ align) :
    requestSize size align = align + 1 + size ∧
    (backing (align + 1 + size) = none →
      malloc_align mem size align backing = (none, mem)) ∧
    (∀ backing2 : Nat → Option Int,
      backing2 (align + 1 + size) = backing (align + 1 + size) →
      malloc_align mem size align backing2 = malloc_align mem size align backing) := by
  have hreq : requestSize size align = align + 1 + size := by
    unfold requestSize
    rw [normAlign_of_pos align h1]
  refine ⟨hreq, ?_, ?_⟩
  · intro hn
    unfold malloc_align
    rw [hreq, hn]
  · intro backing2 hagree
    unfold malloc_align
    rw [hreq, hagree]

theorem malloc_align_request_and_failure_witness :
    requestSize 3 4 = 4 + 1 + 3 ∧
    malloc_align (fun _ => 0) 3 4 (fun _ => none) = (none, fun _ => 0) :=
  ⟨(malloc_align_request_and_failure (fun _ => 0) 3 4 (fun _ => none) (by decide)).1,
   (malloc_align_request_and_failure (fun _ => 0) 3 4 (fun _ => none)
      (by decide)).2.1 rfl⟩

end StrongswanUtils
